import Mathlib

/-!
Verification of the strided broadcast-loop planner / C code generator
(`pytensor/tensor/elemwise_cgen.py`) against its natural-language
specification.

Shallow embedding conventions:

* A loop order (one per operand) is a `List (Option Nat)`: `some d` means
  the operand's physical dimension `d` is bound to that logical output
  position, `none` is the broadcast marker `'x'`.
* Operand metadata is passed as `shapes : List (List Nat)` (per operand,
  per physical dimension lengths, i.e. `PyArray_DIMS`) and, where needed,
  per-operand stride lists `List Int` (element-unit strides, i.e.
  `PyArray_STRIDES(...)/sizeof(dtype)`).
* The generated C code is modelled by computable Lean functions that
  produce the run-time values the generated statements compute (jump
  tables, loop bounds, error branches) or small ASTs of the emitted
  statements where the claim is about emission structure.  C `int`
  arithmetic is modelled with unbounded `Int`; the claims under study are
  structural (which values / which order), not overflow claims.
-/

/-- A loop order entry for one logical output position of one operand:
`some d` binds the operand's physical dimension `d`, `none` is the
broadcast marker `'x'` of the Python source. -/
abbrev LoopCell := Option Nat

/-- A whole per-operand loop order (length = number of logical output
dimensions). -/
abbrev LoopOrder := List LoopCell

/-- Dimension length `PyArray_DIMS(op)[d]` of operand `j`, physical
dimension `d`, out-of-range lookups default to 0. -/
def opLen (shapes : List (List Nat)) (j d : Nat) : Nat :=
  (shapes.getD j []).getD d 0

/-- Python `zip(*loop_orders)` truncates at the shortest sequence and
yields nothing when there are no sequences.  `heads_tails` splits every
list into its head and tail, failing if any list is empty. -/
def heads_tails : List LoopOrder → Option (List LoopCell × List LoopOrder)
  | [] => some ([], [])
  | [] :: _ => none
  | (a :: as) :: ls =>
    match heads_tails ls with
    | some (hs, ts) => some (a :: hs, as :: ts)
    | none => none

/-- Fueled worker for `pyZip`; the fuel is the length of the first list,
which bounds the number of rows `zip` can produce. -/
def pyZipAux : Nat → List LoopOrder → List (List LoopCell)
  | 0, _ => []
  | Nat.succ n, ls =>
    if ls.isEmpty then []
    else
      match heads_tails ls with
      | some (hs, ts) => hs :: pyZipAux n ts
      | none => []

/-- Model of Python `zip(*loop_orders)`: the list of per-position columns
(each column lists, in operand order, every operand's binding at that
logical position). -/
def pyZip (ls : List LoopOrder) : List (List LoopCell) :=
  pyZipAux (ls.headD []).length ls

/-! ### make_checks: jump-table initialization (claim C1) -/

/-- Jump table construction of `make_checks` (lines 56-81): the Python
loop runs over `reversed(list(enumerate(loop_order)))` carrying the
string variable `adjust` (starting at `"0"`); a right fold reproduces
exactly that innermost-to-outermost traversal.  Returns the list of
per-position jumps together with the final `adjust` value. -/
def jumpsAndAdjust (shape : List Nat) (stride : List Int) (lo : LoopOrder) :
    List Int × Int :=
  lo.foldr
    (fun o acc =>
      match o with
      | some d =>
          ((stride.getD d 0 - acc.2) :: acc.1,
            (shape.getD d 0 : Int) * stride.getD d 0)
      | none => ((-acc.2) :: acc.1, 0))
    ([], 0)

/-- The per-position jumps the initialization code of `make_checks`
assigns to `var_jump{index}_{j}`. -/
def make_checks_jumps (shape : List Nat) (stride : List Int) (lo : LoopOrder) :
    List Int :=
  (jumpsAndAdjust shape stride lo).1

/-- Specification-side `adjust` value produced by processing a suffix of
the loop order: `0` for the empty suffix or a broadcast head, `n * s` for
a concrete head (the recurrence overwrites `adjust`, so only the head of
the suffix matters). -/
def adjust_spec (shape : List Nat) (stride : List Int) : LoopOrder → Int
  | [] => 0
  | some d :: _ => (shape.getD d 0 : Int) * stride.getD d 0
  | none :: _ => 0

/-- Specification-side jump at position `i`: `s - adjust` for a concrete
binding, `-adjust` for a broadcast one, where `adjust` is the value left
by the positions nested inside `i` (the suffix starting at `i+1`). -/
def jump_spec (shape : List Nat) (stride : List Int) (lo : LoopOrder) (i : Nat) :
    Int :=
  match lo.get? i with
  | some (some d) => stride.getD d 0 - adjust_spec shape stride (lo.drop (i + 1))
  | some none => -adjust_spec shape stride (lo.drop (i + 1))
  | none => 0

/-! ### make_checks: rank checks (claim C7) -/

/-- Minimum number of dimensions the emitted rank check requires
(`min_nd = max(nonx) + 1`, lines 44-49), `none` when the loop order has
no concrete binding and no check is emitted. -/
def required_min_nd (lo : LoopOrder) : Option Nat :=
  match (lo.filterMap id).max? with
  | some m => some (m + 1)
  | none => none

/-- Whether the emitted rank check fails for an operand whose actual
rank (`PyArray_NDIM`) is `rank`: the generated code errors iff
`rank < min_nd`; with no emitted check nothing can fail. -/
def rank_check_fails (rank : Nat) (lo : LoopOrder) : Bool :=
  match required_min_nd lo with
  | some m => rank < m
  | none => false

/-! ### make_checks: pairwise dimension checks (claims C3, C9) -/

/-- Translation of `to_compare = [(j, x) for j, x in enumerate(matches)
if x != "x"]` for one column, carrying the running operand index. -/
def to_compare_aux (j : Nat) : List LoopCell → List (Nat × Nat)
  | [] => []
  | some d :: rest => (j, d) :: to_compare_aux (j + 1) rest
  | none :: rest => to_compare_aux (j + 1) rest

/-- Concrete (operand, physical-dim) bindings of one column, in operand
order. -/
def to_compare (col : List LoopCell) : List (Nat × Nat) :=
  to_compare_aux 0 col

/-- Comparison pairs emitted for one column (lines 99-103): nothing with
fewer than two concrete bindings, otherwise the first concrete binding
against every later one. -/
def checksOfColumn (col : List LoopCell) : List ((Nat × Nat) × (Nat × Nat)) :=
  match to_compare col with
  | [] => []
  | [_] => []
  | p0 :: rest => rest.map (fun p => (p0, p))

/-- Every dimension-comparison check emitted by `make_checks`, over all
columns of the zipped loop orders. -/
def emitted_checks (los : List LoopOrder) : List ((Nat × Nat) × (Nat × Nat)) :=
  (pyZip los).flatMap checksOfColumn

/-- The two kind-tagged errors the generated dimension checks can raise,
with the structured context they format into the message: operand index,
physical dimension index and observed length for both sides. -/
inductive CheckError where
  | RuntimeBroadcast (opA dimA : Nat) (lenA : Nat) (opB dimB : Nat) (lenB : Nat)
  | DimensionMismatch (opA dimA : Nat) (lenA : Nat) (opB dimB : Nat) (lenB : Nat)
deriving DecidableEq, Repr

/-- Run-time behaviour of one emitted comparison (lines 104-129): fire
only on unequal lengths, distinguishing the runtime-broadcast error (one
side has length 1) from the plain dimension mismatch. -/
def runCheck (shapes : List (List Nat)) (pr : (Nat × Nat) × (Nat × Nat)) :
    Option CheckError :=
  let n0 := opLen shapes pr.1.1 pr.1.2
  let n1 := opLen shapes pr.2.1 pr.2.2
  if n0 ≠ n1 then
    if n0 = 1 ∨ n1 = 1 then
      some (.RuntimeBroadcast pr.1.1 pr.1.2 n0 pr.2.1 pr.2.2 n1)
    else
      some (.DimensionMismatch pr.1.1 pr.1.2 n0 pr.2.1 pr.2.2 n1)
  else none

/-- First error raised by the generated battery of checks (the generated
C is a sequence of `if`s; the first failing comparison reaches
`%(fail)s`). -/
def make_checks_error (shapes : List (List Nat)) (los : List LoopOrder) :
    Option CheckError :=
  (emitted_checks los).findSome? (runCheck shapes)

/-! ### compute_output_dims_lengths (claim C4) -/

/-- Translation of the `for j, candidate in enumerate(candidates): ...
break / else` search (lines 145-152): first concrete binding of a column,
with the running operand index carried explicitly. -/
def first_concrete_aux (j : Nat) : List LoopCell → Option (Nat × Nat)
  | [] => none
  | some d :: _ => some (j, d)
  | none :: rest => first_concrete_aux (j + 1) rest

/-- First concrete (operand, physical-dim) binding of a column, if any. -/
def first_concrete (col : List LoopCell) : Option (Nat × Nat) :=
  first_concrete_aux 0 col

/-- Output length the generated code stores for one column: the length
of the first non-broadcast operand dimension, else 1. -/
def output_dim_length (shapes : List (List Nat)) (col : List LoopCell) : Nat :=
  match first_concrete col with
  | some (j, d) => opLen shapes j d
  | none => 1

/-- Model of `compute_output_dims_lengths` (lines 134-154): one resolved
length per logical output position. -/
def compute_output_dims_lengths (shapes : List (List Nat))
    (los : List LoopOrder) : List Nat :=
  (pyZip los).map (output_dim_length shapes)

/-! ### make_loop / make_loop_careduce loop bounds (claim C2) -/

/-- Translation of the `suitable_n` computation shared by the `loop_over`
helpers of `make_loop` (lines 240-247) and `make_loop_careduce` (lines
514-519): the variable starts at `"1"` and is overwritten by every
concrete binding met while scanning the operands in order, so the final
value names the last concrete binding. -/
def suitable_sel_aux (j : Nat) (acc : Option (Nat × Nat)) :
    List LoopCell → Option (Nat × Nat)
  | [] => acc
  | some d :: rest => suitable_sel_aux (j + 1) (some (j, d)) rest
  | none :: rest => suitable_sel_aux (j + 1) acc rest

/-- The (operand, physical-dim) pair whose length variable the emitted
loop bound names, `none` when every operand broadcasts at the column. -/
def suitable_sel (col : List LoopCell) : Option (Nat × Nat) :=
  suitable_sel_aux 0 none col

/-- Numeric value of the emitted loop bound (`suitable_n`). -/
def suitableExtent (shapes : List (List Nat)) (col : List LoopCell) : Nat :=
  match suitable_sel col with
  | some (j, d) => opLen shapes j d
  | none => 1

/-- Loop bounds of the canonical emitter `make_loop`, one per logical
level. -/
def make_loop_bounds (shapes : List (List Nat)) (los : List LoopOrder) :
    List Nat :=
  (pyZip los).map (suitableExtent shapes)

/-- Specification-side bound per claim C2: the dimension length of the
first operand with a concrete binding at the column, 1 when every operand
broadcasts there. -/
def first_bound_spec (shapes : List (List Nat)) (col : List LoopCell) : Nat :=
  match first_concrete col with
  | some (j, d) => opLen shapes j d
  | none => 1

/-! ### Parallelization hints (claim C5) -/

/-- OpenMP hints attached by `make_loop` (lines 248-253): when `openmp`
is set, every `loop_over` call -- i.e. every nesting level -- prepends a
`#pragma omp parallel for if( suitable_n >= minsize)` to its `for`
header.  Each entry is `some (gateCount, minsize)` when the level carries
the pragma (`gateCount` is the projected iteration count named in the
pragma's `if` clause), `none` otherwise. -/
def make_loop_omp (shapes : List (List Nat)) (los : List LoopOrder)
    (openmp : Bool) (minsize : Nat) : List (Option (Nat × Nat)) :=
  (pyZip los).map (fun col =>
    if openmp then some (suitableExtent shapes col, minsize) else none)

/-! ### make_reordered_loop (claims C5, C6) -/

/-- The `(|stride|, originalIndex)` pairs `make_reordered_loop` fills into
`ovar_loops` (lines 319-333) for the reference operand: absolute stride
value for a concrete binding, 0 for a broadcast binding, paired with the
original dimension index. -/
def build_pairs (refStride : List Int) (lo : LoopOrder) : List (Nat × Nat) :=
  lo.enum.map (fun p =>
    match p.2 with
    | some d => ((refStride.getD d 0).natAbs, p.1)
    | none => (0, p.1))

/-- Boolean ascending lexicographic order on `(stride, index)` pairs,
i.e. C++ `operator<=` induced by `std::pair`'s `operator<`. -/
def pairLeB (p q : Nat × Nat) : Bool :=
  p.1 < q.1 || (p.1 == q.1 && p.2 ≤ q.2)

/-- Result of `std::sort(ovar_loops.rbegin(), ovar_loops.rend())` (line
340): the pair vector sorted in decreasing lexicographic order (strict,
since the original indices are pairwise distinct, so any comparison sort
yields this unique order). -/
def order_loops (refStride : List Int) (lo : LoopOrder) : List (Nat × Nat) :=
  (build_pairs refStride lo).mergeSort (fun p q => pairLeB q p)

/-- Per-level totals of `make_reordered_loop` (lines 344-357):
`TOTAL_i = init_totals[sorted[i].second]` where `init_totals` is produced
by `compute_output_dims_lengths`. -/
def reordered_totals (shapes : List (List Nat)) (los : List LoopOrder)
    (refStride : List Int) (olv : Nat) : List Nat :=
  (order_loops refStride (los.getD olv [])).map
    (fun p => (compute_output_dims_lengths shapes los).getD p.2 0)

/-- OpenMP hints attached by `make_reordered_loop` (lines 427-433): only
the level `i = 0` (the outermost loop) receives the pragma, gated on
`TOTAL_0 >= minsize`. -/
def make_reordered_omp (shapes : List (List Nat)) (los : List LoopOrder)
    (refStride : List Int) (olv : Nat) (openmp : Bool) (minsize : Nat) :
    List (Option (Nat × Nat)) :=
  (List.range (los.headD []).length).map (fun i =>
    if openmp ∧ i = 0 then
      some ((reordered_totals shapes los refStride olv).getD 0 1, minsize)
    else none)

/-! ### Loop-nest semantics (claim C8)

Both `make_loop` and `make_loop_careduce` emit a nest of `M` loops; we
interpret, per operand, the sequence of element offsets (relative to
`PyArray_DATA`) the innermost task dereferences.  Each level carries the
operand's jump at that level, the level's `suitable_n` extent, and
whether the operand's pointer initialization (`var_iter = PyArray_DATA`,
placed by the `preloops` dictionary at the operand's first non-broadcast
level, or level 0 if it is all-broadcast) sits directly before this
level's loop. -/

/-- Data of one nesting level as it concerns a single operand. -/
structure LevelInfo where
  extent : Nat
  jump : Int
  reset : Bool
deriving Repr, DecidableEq

/-- Iterate a body `n` times the way `make_loop_careduce` does: run the
inner nest from the current pointer, then advance the running pointer by
the level's jump (`var_iter += var_jump`, emitted after the body). -/
def careduceIterN (f : Int → List Int × Int) (jump : Int) :
    Nat → Int → List Int × Int
  | 0, p => ([], p)
  | Nat.succ n, p =>
    let r := f p
    let r2 := careduceIterN f jump n (r.2 + jump)
    (r.1 ++ r2.1, r2.2)

/-- Offsets visited by the reduction-variant nest for one operand (and
the final pointer value): at the innermost position the task observes the
current running pointer; each level resets the pointer to the data base
if its preloop holds the operand's initialization, then loops
`extent`-many times advancing by `jump` after each body. -/
def careduceNest : List LevelInfo → Int → List Int × Int
  | [], p => ([p], p)
  | l :: rest, p =>
    careduceIterN (careduceNest rest) l.jump l.extent (if l.reset then 0 else p)

/-- Offsets visited by the canonical `make_loop` nest for one operand:
the emitted element reference is `*( var_iter + ITER_i * var_jump_i )`
and `var_iter` is never advanced, so the address the innermost task
dereferences is the (possibly reset) base pointer plus the innermost
iterator times the innermost jump. -/
def canonicalNest : List LevelInfo → Int → List Int
  | [], p => [p]
  | [l], p =>
    let p0 : Int := if l.reset then 0 else p
    (List.range l.extent).map (fun k => p0 + (k : Int) * l.jump)
  | l :: rest, p =>
    let p0 : Int := if l.reset then 0 else p
    (List.range l.extent).flatMap (fun _ => canonicalNest rest p0)

/-- Level at which the `preloops` dictionary places an operand's pointer
initialization: the first position with a concrete binding, level 0 when
every position broadcasts (lines 262-275 and 528-541). -/
def preloop_level (lo : LoopOrder) : Nat :=
  match first_concrete lo with
  | some (j, _) => j
  | none => 0

/-- Per-level data of the emitted nest for operand `op`: shared
`suitable_n` extents, the operand's own jump table from `make_checks`,
and the placement of its pointer initialization. -/
def levelInfosFor (shapes : List (List Nat)) (strides : List (List Int))
    (los : List LoopOrder) (op : Nat) : List LevelInfo :=
  let lo := los.getD op []
  let jumps := make_checks_jumps (shapes.getD op []) (strides.getD op []) lo
  (make_loop_bounds shapes los).enum.map (fun p =>
    { extent := p.2
      jump := jumps.getD p.1 0
      reset := preloop_level lo = p.1 })

/-! ### make_loop_careduce emission structure (claim C10) -/

/-- Statements of the emitted reduction-variant code, at the granularity
claim C10 needs: operand pointer initializations, opaque caller-supplied
fragments (identified by a number), per-operand pointer advances, and the
`for (ITER_i = suitable_n; ITER_i; ITER_i--)` loops with their bodies. -/
inductive CItem where
  | initOp (op : Nat)
  | frag (t : Nat)
  | advance (op : Nat) (level : Nat)
  | loopDown (level : Nat) (sel : Option (Nat × Nat)) (body : List CItem)

/-- Whether a statement is one of the emitted `for` loops. -/
def CItem.isLoop : CItem → Bool
  | .loopDown _ _ _ => true
  | _ => false

/-- Pointer initializations the `preloops` dictionary holds for a given
level, in operand order. -/
def careduce_preloops (los : List LoopOrder) (lvl : Nat) : List CItem :=
  los.enum.filterMap (fun p =>
    if preloop_level p.2 = lvl then some (.initOp p.1) else none)

/-- Translation of `make_loop_careduce`'s `loop_over` (lines 511-526):
the preloop statements, then the loop whose body is the inner code
followed by one pointer advance per operand. -/
def careduce_loop_over (nops : Nat) (preloop : List CItem) (code : List CItem)
    (col : List LoopCell) (i : Nat) : List CItem :=
  preloop ++
    [.loopDown i (suitable_sel col)
      (code ++ (List.range nops).map (fun j => .advance j i))]

/-- Model of `make_loop_careduce` (lines 543-553).  `pairTasks` holds the
`M` leading `(pre_task, task)` fragment pairs of `loop_tasks` and
`finalTask` its trailing terminal fragment, so the Python condition
`len(loop_tasks) == 1` is `pairTasks = []`.  Returns the statement list
inside the emitted braces. -/
def make_loop_careduce (los : List LoopOrder) (pairTasks : List (Nat × Nat))
    (finalTask : Nat) : List CItem :=
  if pairTasks.length = 0 then
    careduce_preloops los 0 ++ [.frag finalTask]
  else
    let triples := ((List.range pairTasks.length).zip pairTasks).zip (pyZip los)
    let s := triples.reverse.foldl
      (fun s t =>
        careduce_loop_over los.length
          (careduce_preloops los t.1.1 ++ [.frag t.1.2.1])
          (s ++ [.frag t.1.2.2]) t.2 t.1.1)
      []
    s ++ [.frag finalTask]

/-- Operand index the generated error message cites first (cites as
`input[opA]`). -/
def CheckError.opA : CheckError → Nat
  | .RuntimeBroadcast a _ _ _ _ _ => a
  | .DimensionMismatch a _ _ _ _ _ => a

/-- Physical dimension index the generated error message cites first. -/
def CheckError.dimA : CheckError → Nat
  | .RuntimeBroadcast _ x _ _ _ _ => x
  | .DimensionMismatch _ x _ _ _ _ => x

/-! ## Helper lemmas -/

theorem jumpsAndAdjust_snd (shape : List Nat) (stride : List Int) :
    ∀ lo : LoopOrder, (jumpsAndAdjust shape stride lo).2 = adjust_spec shape stride lo
  | [] => rfl
  | some _ :: _ => rfl
  | none :: _ => rfl

theorem jumpsAndAdjust_cons (shape : List Nat) (stride : List Int)
    (o : LoopCell) (rest : LoopOrder) :
    jumpsAndAdjust shape stride (o :: rest) =
      match o with
      | some d =>
          ((stride.getD d 0 - (jumpsAndAdjust shape stride rest).2) ::
              (jumpsAndAdjust shape stride rest).1,
            (shape.getD d 0 : Int) * stride.getD d 0)
      | none =>
          ((-(jumpsAndAdjust shape stride rest).2) ::
              (jumpsAndAdjust shape stride rest).1, 0) := by
  cases o <;> rfl

theorem first_concrete_aux_none_of (j : Nat) :
    ∀ col : List LoopCell, (∀ o ∈ col, o = none) →
      first_concrete_aux j col = none := by
  intro col
  induction col generalizing j with
  | nil => intro _; rfl
  | cons o rest ih =>
    intro h
    have ho : o = none := h o (List.mem_cons_self o rest)
    subst ho
    exact ih (j + 1) (fun o hm => h o (List.mem_cons_of_mem _ hm))

theorem first_concrete_aux_eq_none (j : Nat) :
    ∀ col : List LoopCell, first_concrete_aux j col = none →
      ∀ o ∈ col, o = none := by
  intro col
  induction col generalizing j with
  | nil => intro _ o hm; cases hm
  | cons c rest ih =>
    intro h o hm
    cases c with
    | some d => simp [first_concrete_aux] at h
    | none =>
      rcases List.mem_cons.mp hm with h1 | h2
      · exact h1
      · exact ih (j + 1) h o h2

theorem first_concrete_aux_of (j : Nat) :
    ∀ (col : List LoopCell) (k d : Nat), col[k]? = some (some d) →
      (∀ m < k, col[m]? = some none) →
      first_concrete_aux j col = some (j + k, d) := by
  intro col
  induction col generalizing j with
  | nil => intro k d hk _; simp at hk
  | cons c rest ih =>
    intro k d hk hbefore
    cases k with
    | zero =>
      simp at hk
      subst hk
      rfl
    | succ k =>
      have hc : c = none := by
        have := hbefore 0 (Nat.succ_pos k)
        simpa using this
      subst hc
      have hk' : rest[k]? = some (some d) := by simpa using hk
      have hbefore' : ∀ m < k, rest[m]? = some none := by
        intro m hm
        have := hbefore (m + 1) (Nat.succ_lt_succ hm)
        simpa using this
      have := ih (j + 1) k d hk' hbefore'
      simpa [first_concrete_aux, Nat.add_comm, Nat.add_assoc, Nat.add_left_comm]
        using this

theorem first_concrete_aux_some (j : Nat) :
    ∀ (col : List LoopCell) (a d : Nat),
      first_concrete_aux j col = some (a, d) →
      ∃ k, a = j + k ∧ col[k]? = some (some d) ∧ ∀ m < k, col[m]? = some none := by
  intro col
  induction col generalizing j with
  | nil => intro a d h; simp [first_concrete_aux] at h
  | cons c rest ih =>
    intro a d h
    cases c with
    | some d0 =>
      simp [first_concrete_aux] at h
      refine ⟨0, by omega, ?_, by omega⟩
      simp [h.1.symm, h.2]
    | none =>
      have h' : first_concrete_aux (j + 1) rest = some (a, d) := h
      rcases ih (j + 1) a d h' with ⟨k, hak, hget, hbef⟩
      refine ⟨k + 1, by omega, by simpa using hget, ?_⟩
      intro m hm
      cases m with
      | zero => simp
      | succ m =>
        have := hbef m (by omega)
        simpa using this

theorem suitable_sel_aux_all_none (j : Nat) (acc : Option (Nat × Nat)) :
    ∀ col : List LoopCell, (∀ o ∈ col, o = none) →
      suitable_sel_aux j acc col = acc := by
  intro col
  induction col generalizing j acc with
  | nil => intro _; rfl
  | cons c rest ih =>
    intro h
    have hc : c = none := h c (List.mem_cons_self c rest)
    subst hc
    exact ih (j + 1) acc (fun o hm => h o (List.mem_cons_of_mem _ hm))

theorem suitable_sel_aux_of_last (j : Nat) (acc : Option (Nat × Nat)) :
    ∀ (col : List LoopCell) (k d : Nat), col[k]? = some (some d) →
      (∀ m, k < m → ∀ e, col[m]? = some e → e = none) →
      suitable_sel_aux j acc col = some (j + k, d) := by
  intro col
  induction col generalizing j acc with
  | nil => intro k d hk _; simp at hk
  | cons c rest ih =>
    intro k d hk hafter
    cases k with
    | zero =>
      simp at hk
      subst hk
      have hrest : ∀ o ∈ rest, o = none := by
        intro o hm
        obtain ⟨m, hma, hme⟩ := List.getElem_of_mem hm
        refine hafter (m + 1) (Nat.succ_pos m) o ?_
        rw [List.getElem?_cons_succ, List.getElem?_eq_getElem hma, hme]
      have := suitable_sel_aux_all_none (j + 1) (some (j, d)) rest hrest
      simpa [suitable_sel_aux] using this
    | succ k =>
      have hk' : rest[k]? = some (some d) := by simpa using hk
      have hafter' : ∀ m, k < m → ∀ e, rest[m]? = some e → e = none := by
        intro m hm e he
        exact hafter (m + 1) (Nat.succ_lt_succ hm) e (by simpa using he)
      have h1 := ih (j + 1) (some (j, c.getD 0)) k d hk' hafter'
      have h2 := ih (j + 1) acc k d hk' hafter'
      cases c with
      | some d0 =>
        simpa [suitable_sel_aux, Nat.add_comm, Nat.add_assoc, Nat.add_left_comm]
          using ih (j + 1) (some (j, d0)) k d hk' hafter'
      | none =>
        simpa [suitable_sel_aux, Nat.add_comm, Nat.add_assoc, Nat.add_left_comm]
          using h2

theorem to_compare_aux_head (j : Nat) :
    ∀ col : List LoopCell, (to_compare_aux j col).head? = first_concrete_aux j col := by
  intro col
  induction col generalizing j with
  | nil => rfl
  | cons c rest ih =>
    cases c with
    | some d => rfl
    | none => exact ih (j + 1)

/-! ## Claim theorems -/

/-- Claim C1 (confirmed): for every operand and loop order, the
initialization code of `make_checks` computes the jump at every position
by the innermost-to-outermost recurrence: with `adjust` starting at 0, a
position bound to concrete dimension `d` (stride `s`, length `n`) gets
jump `s - adjust` and sets `adjust` to `n * s`; a broadcast position gets
jump `-adjust` and sets `adjust` to 0.  `jump_spec`/`adjust_spec` state
the recurrence positionally; `make_checks_jumps` is the translation of
the emitting loop. -/
theorem make_checks_jump_recurrence (shape : List Nat) (stride : List Int)
    (lo : LoopOrder) (i : Nat) (h : i < lo.length) :
    (make_checks_jumps shape stride lo)[i]? =
      some (jump_spec shape stride lo i) := by
  induction lo generalizing i with
  | nil => simp at h
  | cons o rest ih =>
    cases i with
    | zero =>
      cases o with
      | some d =>
        have hc := jumpsAndAdjust_cons shape stride (some d) rest
        simp only [make_checks_jumps, hc]
        simp [jump_spec, jumpsAndAdjust_snd, List.get?_eq_getElem?]
      | none =>
        have hc := jumpsAndAdjust_cons shape stride none rest
        simp only [make_checks_jumps, hc]
        simp [jump_spec, jumpsAndAdjust_snd, List.get?_eq_getElem?]
    | succ i =>
      have h' : i < rest.length := by simpa using h
      have hrec := ih i h'
      simp only [make_checks_jumps] at hrec
      cases o with
      | some d =>
        have hc := jumpsAndAdjust_cons shape stride (some d) rest
        simp only [make_checks_jumps, hc, List.getElem?_cons_succ]
        rw [hrec]
        simp [jump_spec, List.get?_eq_getElem?]
      | none =>
        have hc := jumpsAndAdjust_cons shape stride none rest
        simp only [make_checks_jumps, hc, List.getElem?_cons_succ]
        rw [hrec]
        simp [jump_spec, List.get?_eq_getElem?]

/-- Witness for C1 at a concrete operand: shape `(5, 3)`, element strides
`(3, 1)`, loop order `('x', 0, 1)`; the outermost (broadcast) jump is
`-(5*3)`. -/
theorem make_checks_jump_recurrence_witness :
    (make_checks_jumps [5, 3] [3, 1] [none, some 0, some 1])[0]? =
      some (jump_spec [5, 3] [3, 1] [none, some 0, some 1] 0) :=
  make_checks_jump_recurrence [5, 3] [3, 1] [none, some 0, some 1] 0 (by decide)

/-- Claim C2 counterexample (claim as stated is false): with two operands
of lengths 2 and 3 both concretely bound at level 0, the emitted bound is
the length of the last concrete operand (3), not of the first (2) as the
claim states -- the `suitable_n` variable is overwritten by every
concrete operand scanned. -/
theorem make_loop_bound_not_first_concrete :
    ¬ ((make_loop_bounds [[2], [3]] [[some 0], [some 0]])[0]? =
        some (first_bound_spec [[2], [3]] [some 0, some 0])) := by
  decide

/-- Claim C2 amended (proved): for every logical level, the emitted loop
bound of the canonical emitter is the dimension length of the last
operand whose loop order has a concrete binding at that position, and the
constant 1 when every operand broadcasts there. -/
theorem make_loop_bound_last_concrete (shapes : List (List Nat))
    (los : List LoopOrder) (i : Nat) (col : List LoopCell)
    (hcol : (pyZip los)[i]? = some col) :
    (make_loop_bounds shapes los)[i]? = some (suitableExtent shapes col) ∧
    ((∀ o ∈ col, o = none) → suitableExtent shapes col = 1) ∧
    (∀ k d, col[k]? = some (some d) →
      (∀ m, k < m → ∀ e, col[m]? = some e → e = none) →
      suitableExtent shapes col = opLen shapes k d) := by
  refine ⟨?_, ?_, ?_⟩
  · simp [make_loop_bounds, hcol]
  · intro h
    simp [suitableExtent, suitable_sel, suitable_sel_aux_all_none 0 none col h]
  · intro k d hk haft
    have hs := suitable_sel_aux_of_last 0 none col k d hk haft
    simp [suitableExtent, suitable_sel, hs]

/-- Witness for the amended C2 on the counterexample's input: the bound
at level 0 is the last concrete operand's length. -/
theorem make_loop_bound_last_concrete_witness :
    (make_loop_bounds [[2], [3]] [[some 0], [some 0]])[0]? =
      some (suitableExtent [[2], [3]] [some 0, some 0]) :=
  (make_loop_bound_last_concrete [[2], [3]] [[some 0], [some 0]] 0
      [some 0, some 0] (by decide)).1

/-- Claim C3 (confirmed): every emitted comparison between two operands
fires exactly on unequal lengths, raising the runtime-broadcast error
exactly when one of the two lengths is 1 and the dimension-mismatch error
exactly when neither is; both errors carry the two operand indices, the
two physical dimension indices, and the two observed lengths. -/
theorem dimension_checks_error_kinds (shapes : List (List Nat))
    (los : List LoopOrder) (pr : (Nat × Nat) × (Nat × Nat))
    (hpr : pr ∈ emitted_checks los) :
    (runCheck shapes pr =
        some (.RuntimeBroadcast pr.1.1 pr.1.2 (opLen shapes pr.1.1 pr.1.2)
          pr.2.1 pr.2.2 (opLen shapes pr.2.1 pr.2.2)) ↔
      opLen shapes pr.1.1 pr.1.2 ≠ opLen shapes pr.2.1 pr.2.2 ∧
        (opLen shapes pr.1.1 pr.1.2 = 1 ∨ opLen shapes pr.2.1 pr.2.2 = 1)) ∧
    (runCheck shapes pr =
        some (.DimensionMismatch pr.1.1 pr.1.2 (opLen shapes pr.1.1 pr.1.2)
          pr.2.1 pr.2.2 (opLen shapes pr.2.1 pr.2.2)) ↔
      opLen shapes pr.1.1 pr.1.2 ≠ opLen shapes pr.2.1 pr.2.2 ∧
        ¬(opLen shapes pr.1.1 pr.1.2 = 1 ∨ opLen shapes pr.2.1 pr.2.2 = 1)) ∧
    (runCheck shapes pr = none ↔
      opLen shapes pr.1.1 pr.1.2 = opLen shapes pr.2.1 pr.2.2) := by
  by_cases hab : opLen shapes pr.1.1 pr.1.2 = opLen shapes pr.2.1 pr.2.2
  · simp [runCheck, hab]
  · by_cases h1 : opLen shapes pr.1.1 pr.1.2 = 1 ∨ opLen shapes pr.2.1 pr.2.2 = 1
    · simp [runCheck, hab, h1]
    · simp [runCheck, hab, h1]

/-- Witness for C3: operands of lengths 3 and 1 sharing logical dimension
0; the emitted check raises the runtime-broadcast error carrying both
operand indices, both physical dimensions and both lengths. -/
theorem dimension_checks_error_kinds_witness :
    runCheck [[3], [1]] ((0, 0), (1, 0)) =
      some (.RuntimeBroadcast 0 0 (opLen [[3], [1]] 0 0) 1 0
        (opLen [[3], [1]] 1 0)) :=
  (dimension_checks_error_kinds [[3], [1]] [[some 0], [some 0]] ((0, 0), (1, 0))
      (by decide)).1.mpr (by decide)

/-- Claim C4 (confirmed): the resolved output shape takes, at each
position, the length of the first operand (in operand order) with a
concrete binding there, and 1 when no operand has a concrete binding. -/
theorem output_dims_borrow_first_concrete (shapes : List (List Nat))
    (los : List LoopOrder) (i : Nat) (col : List LoopCell)
    (hcol : (pyZip los)[i]? = some col) :
    (compute_output_dims_lengths shapes los)[i]? =
      some (output_dim_length shapes col) ∧
    ((∀ o ∈ col, o = none) → output_dim_length shapes col = 1) ∧
    (∀ k d, col[k]? = some (some d) → (∀ m < k, col[m]? = some none) →
      output_dim_length shapes col = opLen shapes k d) := by
  refine ⟨?_, ?_, ?_⟩
  · simp [compute_output_dims_lengths, hcol]
  · intro h
    simp [output_dim_length, first_concrete, first_concrete_aux_none_of 0 col h]
  · intro k d hk hbef
    have hf := first_concrete_aux_of 0 col k d hk hbef
    simp [output_dim_length, first_concrete, hf]

/-- Witness for C4: operands `(0, 1)` and `('x', 0)`; at position 1 the
first concrete binding is operand 0, dimension 1, of length 4. -/
theorem output_dims_borrow_first_concrete_witness :
    (compute_output_dims_lengths [[3, 4], [7]] [[some 0, some 1], [none, some 0]])[1]? =
      some (output_dim_length [[3, 4], [7]] [some 1, some 0]) :=
  (output_dims_borrow_first_concrete [[3, 4], [7]] [[some 0, some 1], [none, some 0]]
      1 [some 1, some 0] (by decide)).1

/-- Claim C5 counterexample (claim as stated is false): with
parallelization enabled on a two-level nest, the canonical emitter
attaches the parallel pragma to the non-outermost level 1 as well, so it
does not annotate only a single (outermost) loop level. -/
theorem make_loop_omp_hint_not_only_outermost :
    (make_loop_omp [[3, 4]] [[some 0, some 1]] true 10)[1]? =
      some (some (4, 10)) := by
  decide

/-- Claim C5 amended (proved): when parallelization is enabled the
reordering emitter annotates only the outermost level, gated on the
outermost level's projected iteration count against the configured
minimum, while the canonical emitter annotates every level, each gated on
that level's own projected iteration count against the minimum. -/
theorem omp_hint_placement (shapes : List (List Nat)) (los : List LoopOrder)
    (refStride : List Int) (olv : Nat) (openmp : Bool) (minsize : Nat) :
    (∀ (i : Nat) (hint : Nat × Nat),
      (make_reordered_omp shapes los refStride olv openmp minsize)[i]? =
          some (some hint) →
      i = 0 ∧ openmp = true ∧
        hint = ((reordered_totals shapes los refStride olv).getD 0 1, minsize)) ∧
    (openmp = true → ∀ (i : Nat) (col : List LoopCell), (pyZip los)[i]? = some col →
      (make_loop_omp shapes los openmp minsize)[i]? =
        some (some (suitableExtent shapes col, minsize))) := by
  constructor
  · intro i hint hi
    simp only [make_reordered_omp, List.getElem?_map] at hi
    rcases Option.map_eq_some'.mp hi with ⟨a, ha, hfa⟩
    rcases List.getElem?_eq_some.mp ha with ⟨hlt, hval⟩
    have hai : a = i := by simpa [List.getElem_range] using hval.symm
    subst hai
    by_cases hc : openmp ∧ a = 0
    · refine ⟨hc.2, hc.1, ?_⟩
      rw [if_pos hc] at hfa
      exact (Option.some.injEq _ _ ▸ hfa).symm
    · rw [if_neg hc] at hfa
      cases hfa
  · intro hop i col hcol
    simp [make_loop_omp, hcol, hop]

/-- Witness for the amended C5: the canonical emitter's level-0 pragma on
a concrete two-level input. -/
theorem omp_hint_placement_witness :
    (make_loop_omp [[3, 4]] [[some 0, some 1]] true 10)[0]? =
      some (some (suitableExtent [[3, 4]] [some 0], 10)) :=
  (omp_hint_placement [[3, 4]] [[some 0, some 1]] [] 0 true 10).2 rfl 0
    [some 0] (by decide)

/-- Claim C6 (confirmed): the reordering emitter's loop order is a
permutation of the reference operand's `(|stride|, originalIndex)` pairs
(stride 0 at broadcast bindings), arranged in strictly decreasing
lexicographic order -- decreasing absolute stride with ties broken by
decreasing original dimension index -- so the outermost loop has the
largest stride and the innermost the smallest. -/
theorem reorder_pairs_sorted_desc (refStride : List Int) (lo : LoopOrder) :
    (order_loops refStride lo).Perm (build_pairs refStride lo) ∧
    (order_loops refStride lo).Pairwise
      (fun p q => q.1 < p.1 ∨ (q.1 = p.1 ∧ q.2 < p.2)) := by
  have hperm : (order_loops refStride lo).Perm (build_pairs refStride lo) :=
    List.mergeSort_perm _ _
  refine ⟨hperm, ?_⟩
  have hsorted :
      (order_loops refStride lo).Pairwise
        (fun p q : Nat × Nat => pairLeB q p = true) := by
    refine List.sorted_mergeSort ?_ ?_ (build_pairs refStride lo)
    · intro a b c hab hbc
      simp only [pairLeB, Bool.or_eq_true, decide_eq_true_eq, Bool.and_eq_true,
        beq_iff_eq] at *
      omega
    · intro a b
      simp only [pairLeB, Bool.or_eq_true, decide_eq_true_eq, Bool.and_eq_true,
        beq_iff_eq]
      omega
  have hsnd : (build_pairs refStride lo).map Prod.snd = List.range lo.length := by
    simp only [build_pairs, List.map_map]
    have hfun :
        (Prod.snd ∘ fun p : Nat × LoopCell =>
          match p.2 with
          | some d => ((refStride.getD d 0).natAbs, p.1)
          | none => (0, p.1)) = Prod.fst := by
      funext p
      obtain ⟨a, o⟩ := p
      cases o <;> rfl
    rw [hfun, List.enum_map_fst]
  have hnodup : (order_loops refStride lo).Pairwise
      (fun p q : Nat × Nat => p.2 ≠ q.2) := by
    have h1 : ((build_pairs refStride lo).map Prod.snd).Nodup := by
      rw [hsnd]; exact List.nodup_range _
    have h2 : ((order_loops refStride lo).map Prod.snd).Nodup :=
      ((hperm.map Prod.snd).nodup_iff).mpr h1
    exact (List.pairwise_map).mp h2
  have hboth := hsorted.and hnodup
  refine hboth.imp ?_
  intro a b hab
  rcases hab with ⟨hle, hne⟩
  simp only [pairLeB, Bool.or_eq_true, decide_eq_true_eq, Bool.and_eq_true,
    beq_iff_eq] at hle
  omega

/-- Claim C7 (confirmed): an operand whose loop order references at least
one concrete dimension gets a rank check requiring `rank >= 1 + max
referenced index` (equivalently, the check passes exactly when every
referenced index is below the rank); an all-broadcast loop order emits no
rank check at all. -/
theorem rank_check_characterization (rank : Nat) (lo : LoopOrder) :
    (rank_check_fails rank lo = true ↔ ∃ d, some d ∈ lo ∧ rank < d + 1) ∧
    (required_min_nd lo = none ↔ ∀ o ∈ lo, o = none) ∧
    (∀ m, required_min_nd lo = some m →
      ∃ d, some d ∈ lo ∧ m = d + 1 ∧ ∀ e, some e ∈ lo → e ≤ d) := by
  have hmem : ∀ d : Nat, d ∈ lo.filterMap id ↔ some d ∈ lo := by
    intro d; simp [List.mem_filterMap]
  have hsome : ∀ m, (lo.filterMap id).max? = some m ↔
      m ∈ lo.filterMap id ∧ ∀ b ∈ lo.filterMap id, b ≤ m := by
    intro m
    exact List.max?_eq_some_iff (fun a => Nat.le_refl a) max_choice
      (fun _ _ _ => Nat.max_le)
  refine ⟨?_, ?_, ?_⟩
  · cases hmax : (lo.filterMap id).max? with
    | none =>
      have hempty : lo.filterMap id = [] := List.max?_eq_none_iff.mp hmax
      simp only [rank_check_fails, required_min_nd, hmax]
      constructor
      · intro h; cases h
      · rintro ⟨d, hd, _⟩
        have : d ∈ lo.filterMap id := (hmem d).mpr hd
        rw [hempty] at this
        cases this
    | some m =>
      obtain ⟨hm_mem, hm_ub⟩ := (hsome m).mp hmax
      simp only [rank_check_fails, required_min_nd, hmax, decide_eq_true_eq]
      constructor
      · intro h
        exact ⟨m, (hmem m).mp hm_mem, by omega⟩
      · rintro ⟨d, hd, hrd⟩
        have hdm : d ≤ m := hm_ub d ((hmem d).mpr hd)
        omega
  · cases hmax : (lo.filterMap id).max? with
    | none =>
      have hempty : lo.filterMap id = [] := List.max?_eq_none_iff.mp hmax
      simp only [required_min_nd, hmax]
      constructor
      · intro _ o ho
        cases o with
        | none => rfl
        | some d =>
          have : d ∈ lo.filterMap id := (hmem d).mpr ho
          rw [hempty] at this
          cases this
      · intro _; trivial
    | some m =>
      obtain ⟨hm_mem, _⟩ := (hsome m).mp hmax
      simp only [required_min_nd, hmax]
      constructor
      · intro h; cases h
      · intro hall
        have := hall (some m) ((hmem m).mp hm_mem)
        cases this
  · intro m hm
    cases hmax : (lo.filterMap id).max? with
    | none =>
      simp only [required_min_nd, hmax] at hm
      cases hm
    | some m0 =>
      obtain ⟨hm_mem, hm_ub⟩ := (hsome m0).mp hmax
      simp only [required_min_nd, hmax, Option.some.injEq] at hm
      exact ⟨m0, (hmem m0).mp hm_mem, hm.symm,
        fun e he => hm_ub e ((hmem e).mpr he)⟩

/-- Witness for C7: loop order `(2, 'x', 0)` on an operand of rank 2
fails the rank check (it references physical dimension 2, so rank 3 is
required). -/
theorem rank_check_characterization_witness :
    rank_check_fails 2 [some 2, none, some 0] = true :=
  (rank_check_characterization 2 [some 2, none, some 0]).1.mpr
    ⟨2, by decide, by decide⟩

/-- Claim C8 (code bug): for a single valid rank-2 operand with shape
`(2, 2)`, element strides `(2, 1)` and loop order `(0, 1)`, the
reduction-variant nest (running pointer advanced by `+= jump` after each
body) visits element offsets `0, 1, 2, 3`, while the canonical emitter's
nest dereferences `*( var_iter + ITER_i * jump_i )` from a base pointer
it never advances and therefore visits `0, 1, 0, 1`: the two loop nests
do not visit the same sequence of element positions, contradicting the
claim (and the jump semantics documented inside `make_checks` itself,
which the reduction variant implements but the canonical emitter does
not). -/
theorem careduce_canonical_visits_differ :
    (careduceNest (levelInfosFor [[2, 2]] [[2, 1]] [[some 0, some 1]] 0) 0).1 =
        [0, 1, 2, 3] ∧
    canonicalNest (levelInfosFor [[2, 2]] [[2, 1]] [[some 0, some 1]] 0) 0 =
        [0, 1, 0, 1] ∧
    (careduceNest (levelInfosFor [[2, 2]] [[2, 1]] [[some 0, some 1]] 0) 0).1 ≠
      canonicalNest (levelInfosFor [[2, 2]] [[2, 1]] [[some 0, some 1]] 0) 0 := by
  decide

theorem mem_checksOfColumn (col : List LoopCell) (pr : (Nat × Nat) × (Nat × Nat))
    (h : pr ∈ checksOfColumn col) :
    ∃ tl, to_compare col = pr.1 :: tl ∧ pr.2 ∈ tl := by
  cases htc : to_compare col with
  | nil => simp [checksOfColumn, htc] at h
  | cons p0 rest =>
    cases rest with
    | nil => simp [checksOfColumn, htc] at h
    | cons p1 rest2 =>
      have hck : checksOfColumn col = (p1 :: rest2).map (fun p => (p0, p)) := by
        simp [checksOfColumn, htc]
      rw [hck] at h
      rcases List.mem_map.mp h with ⟨p, hp, hpr⟩
      subst hpr
      exact ⟨p1 :: rest2, by simpa using htc, by simpa using hp⟩

/-- Claim C9 (confirmed): for every logical dimension, every emitted
comparison pairs the first concretely bound operand of that dimension
(cited as input A by any resulting error) with one of the later
concretely bound operands -- not all pairs -- and a dimension with fewer
than two concrete bindings emits no check at all. -/
theorem checks_pair_first_concrete (shapes : List (List Nat))
    (los : List LoopOrder) :
    (∀ col ∈ pyZip los, (to_compare col).length < 2 → checksOfColumn col = []) ∧
    (∀ pr ∈ emitted_checks los, ∃ col ∈ pyZip los, ∃ tl,
      to_compare col = pr.1 :: tl ∧ pr.2 ∈ tl ∧
      ∃ k d, pr.1 = (k, d) ∧ col[k]? = some (some d) ∧
        ∀ m < k, col[m]? = some none) ∧
    (∀ pr ∈ emitted_checks los, ∀ e, runCheck shapes pr = some e →
      e.opA = pr.1.1 ∧ e.dimA = pr.1.2) := by
  refine ⟨?_, ?_, ?_⟩
  · intro col _ hlen
    cases htc : to_compare col with
    | nil => simp [checksOfColumn, htc]
    | cons p0 rest =>
      cases rest with
      | nil => simp [checksOfColumn, htc]
      | cons p1 rest2 =>
        rw [htc] at hlen
        simp at hlen
        omega
  · intro pr hpr
    obtain ⟨⟨a, d⟩, p2⟩ := pr
    rcases List.mem_flatMap.mp hpr with ⟨col, hcolmem, hprcol⟩
    refine ⟨col, hcolmem, ?_⟩
    rcases mem_checksOfColumn col ((a, d), p2) hprcol with ⟨tl, htc, htl⟩
    have hhead : (to_compare col).head? = first_concrete col :=
      to_compare_aux_head 0 col
    rw [htc] at hhead
    simp only [List.head?_cons] at hhead
    rcases first_concrete_aux_some 0 col a d hhead.symm with ⟨k, hak, hget, hbef⟩
    have hka : k = a := by omega
    subst hka
    exact ⟨tl, htc, htl, k, d, rfl, hget, hbef⟩
  · intro pr _ e he
    by_cases hab : opLen shapes pr.1.1 pr.1.2 = opLen shapes pr.2.1 pr.2.2
    · simp [runCheck, hab] at he
    · by_cases h1 : opLen shapes pr.1.1 pr.1.2 = 1 ∨ opLen shapes pr.2.1 pr.2.2 = 1
      · simp [runCheck, hab, h1] at he
        subst he
        exact ⟨rfl, rfl⟩
      · simp [runCheck, hab, h1] at he
        subst he
        exact ⟨rfl, rfl⟩

/-- Witness for C9: a dimension with a single concrete binding emits no
comparison check. -/
theorem checks_pair_first_concrete_witness :
    checksOfColumn [some 0, none] = [] :=
  (checks_pair_first_concrete [] [[some 0], [none]]).1 [some 0, none]
    (by decide) (by decide)

/-- Claim C10 (confirmed): called with only the terminal fragment (a
zero-level task list), `make_loop_careduce` emits no loops: the braces
hold exactly the level-0 pointer initializations (operands whose loop
order starts with a concrete binding or is entirely broadcast) followed
by the terminal fragment. -/
theorem careduce_single_task_emits_no_loops (los : List LoopOrder)
    (finalTask : Nat) :
    make_loop_careduce los [] finalTask =
      careduce_preloops los 0 ++ [CItem.frag finalTask] ∧
    (∀ c ∈ make_loop_careduce los [] finalTask, c.isLoop = false) ∧
    (∀ (i : Nat) (lo : LoopOrder), los[i]? = some lo →
      (CItem.initOp i ∈ careduce_preloops los 0 ↔
        (∃ d, lo[0]? = some (some d)) ∨ ∀ o ∈ lo, o = none)) := by
  have h1 : make_loop_careduce los [] finalTask =
      careduce_preloops los 0 ++ [CItem.frag finalTask] := by
    simp [make_loop_careduce]
  refine ⟨h1, ?_, ?_⟩
  · intro c hc
    rw [h1] at hc
    rcases List.mem_append.mp hc with hpre | hfrag
    · rcases List.mem_filterMap.mp hpre with ⟨p, _, hp⟩
      by_cases hl : preloop_level p.2 = 0
      · rw [if_pos hl] at hp
        rcases Option.some.inj hp with rfl
        rfl
      · rw [if_neg hl] at hp
        cases hp
    · rcases List.mem_singleton.mp hfrag with rfl
      rfl
  · intro i lo hlo
    constructor
    · intro hmem
      rcases List.mem_filterMap.mp hmem with ⟨p, hpe, hp⟩
      by_cases hl : preloop_level p.2 = 0
      · rw [if_pos hl] at hp
        have hpi : p.1 = i := by
          have := Option.some.inj hp
          cases this
          rfl
        have hget : los[p.1]? = some p.2 := List.mem_enum_iff_getElem?.mp hpe
        rw [hpi, hlo] at hget
        have hplo : p.2 = lo := (Option.some.inj hget).symm
        rw [hplo] at hl
        unfold preloop_level at hl
        cases hfc : first_concrete lo with
        | none =>
          right
          exact first_concrete_aux_eq_none 0 lo hfc
        | some pr0 =>
          left
          obtain ⟨a, d⟩ := pr0
          rw [hfc] at hl
          simp at hl
          rcases first_concrete_aux_some 0 lo a d hfc with ⟨k, hak, hget0, _⟩
          have hk0 : k = 0 := by omega
          subst hk0
          exact ⟨d, hget0⟩
      · rw [if_neg hl] at hp
        cases hp
    · intro hdisj
      have hlevel : preloop_level lo = 0 := by
        rcases hdisj with ⟨d, hd⟩ | hall
        · have hf := first_concrete_aux_of 0 lo 0 d hd
            (fun m hm => absurd hm (Nat.not_lt_zero m))
          unfold preloop_level first_concrete
          rw [hf]
        · unfold preloop_level first_concrete
          rw [first_concrete_aux_none_of 0 lo hall]
      refine List.mem_filterMap.mpr ⟨(i, lo), ?_, ?_⟩
      · exact List.mk_mem_enum_iff_getElem?.mpr hlo
      · rw [if_pos hlevel]

/-- Witness for C10: with operands `(0,)` and `('x',)`, both pointer
initializations sit at level 0 and the emitted body is exactly those
followed by the terminal fragment. -/
theorem careduce_single_task_emits_no_loops_witness :
    CItem.initOp 0 ∈ careduce_preloops [[some 0], [none]] 0 :=
  ((careduce_single_task_emits_no_loops [[some 0], [none]] 5).2.2 0 [some 0]
      rfl).mpr (Or.inl ⟨0, rfl⟩)
